import Mathlib

/-!
Verification development for the PDF document-management pipeline
(`src/main.py`, `src/models.py`, `src/database.py`).

The shallow embedding models Python strings as `List Char` (Python strings
are sequences of Unicode codepoints).  Character classes used by the
source's regular expressions are translated to executable predicates on
codepoints.  The source's regexes are ASCII-class based except for `\d` and
`\s`: `\s` is modelled by the exact Python whitespace codepoint set below;
`\d` (Unicode decimal digits in Python) is modelled by its ASCII subset,
which is adequate here because no verified property distinguishes
non-ASCII decimal digits.
-/

namespace DocExtract

/-- Codepoints matched by Python's `\s` / `str.strip()` whitespace set:
TAB..CR (9-13), FS..US+space (28-32), NEL 133, NBSP 160, OGHAM 5760,
U+2000..U+200A, LS 8232, PS 8233, NNBSP 8239, MMSP 8287, IDSP 12288. -/
def isPySpace (c : Char) : Bool :=
  (9 ≤ c.toNat && c.toNat ≤ 13) || (28 ≤ c.toNat && c.toNat ≤ 32) ||
  c.toNat == 133 || c.toNat == 160 || c.toNat == 5760 ||
  (8192 ≤ c.toNat && c.toNat ≤ 8202) || c.toNat == 8232 || c.toNat == 8233 ||
  c.toNat == 8239 || c.toNat == 8287 || c.toNat == 12288

/-- ASCII letter, i.e. the class `[a-zA-Z]`. -/
def isAsciiAlpha (c : Char) : Bool :=
  (65 ≤ c.toNat && c.toNat ≤ 90) || (97 ≤ c.toNat && c.toNat ≤ 122)

/-- ASCII digit, i.e. the class `[0-9]` (model of `\d`). -/
def isDigitChar (c : Char) : Bool :=
  48 ≤ c.toNat && c.toNat ≤ 57

/-- The email local-part class `[a-zA-Z0-9._%+-]`
(codepoints 46 `.`, 95 `_`, 37 `%`, 43 `+`, 45 `-`). -/
def isLocalChar (c : Char) : Bool :=
  isAsciiAlpha c || isDigitChar c || c.toNat == 46 || c.toNat == 95 ||
  c.toNat == 37 || c.toNat == 43 || c.toNat == 45

/-- The email domain class `[a-zA-Z0-9.-]` (46 `.`, 45 `-`). -/
def isDomChar (c : Char) : Bool :=
  isAsciiAlpha c || isDigitChar c || c.toNat == 46 || c.toNat == 45

/-- The phone separator class `[-.\s]` (45 `-`, 46 `.`, or whitespace). -/
def isPhoneSep (c : Char) : Bool :=
  c.toNat == 45 || c.toNat == 46 || isPySpace c

/-! ## Python string helpers (`str.strip`, `str.split(",")`, `",".join`) -/

/-- `str.strip()`: drop whitespace from both ends. -/
def pyStrip (s : List Char) : List Char :=
  ((s.dropWhile isPySpace).reverse.dropWhile isPySpace).reverse

/-- `value.split(",")`: split at every comma, keeping empty pieces
(`"".split(",") = [""]`, i.e. `splitComma [] = [[]]`). -/
def splitComma : List Char → List (List Char)
  | [] => [[]]
  | c :: t =>
    if c = ',' then [] :: splitComma t
    else
      match splitComma t with
      | [] => [[c]]
      | h :: r => (c :: h) :: r

/-- `",".join(xs)`. -/
def joinComma : List (List Char) → List Char
  | [] => []
  | [x] => x
  | x :: y :: t => x ++ ',' :: joinComma (y :: t)

/-- `parse_list` (src/main.py:98-102): empty string gives `[]`; otherwise
split on commas, strip each item, and keep only items that strip to
something non-empty. -/
def parse_list (value : List Char) : List (List Char) :=
  if value = [] then []
  else ((splitComma value).map pyStrip).filter (fun x => x ≠ [])

/-! ## SQL `LIKE` (SQLAlchemy `ilike`, SQLite semantics)

`col.ilike(pat)` compiles to `lower(col) LIKE lower(pat)` on SQLite, and
SQLite's `lower` folds ASCII only.  `%` matches any sequence, `_` any
single character; there is no escape character.  Ordinary characters are
compared after ASCII case folding. -/

/-- ASCII lower-casing, as SQLite's `lower()` performs. -/
def lowerChar (c : Char) : Char :=
  if 65 ≤ c.toNat ∧ c.toNat ≤ 90 then Char.ofNat (c.toNat + 32) else c

def lowerList (s : List Char) : List Char := s.map lowerChar

/-- Try `f` on every suffix of `s` (including `s` itself and `[]`). -/
def anyDrop (f : List Char → Bool) : List Char → Bool
  | [] => f []
  | c :: t => f (c :: t) || anyDrop f t

/-- SQL `LIKE` matching of a pattern against a string, ASCII
case-insensitive (SQLite semantics, no escape character). -/
def likeM : List Char → List Char → Bool
  | [], s => s.isEmpty
  | c :: p, s =>
    if c = '%' then anyDrop (likeM p) s
    else if c = '_' then
      match s with
      | [] => false
      | _ :: t => likeM p t
    else
      match s with
      | [] => false
      | d :: t => (lowerChar c == lowerChar d) && likeM p t

/-! ## Content statistics (src/main.py:87-93) -/

/-- `text.split()` with no separator: whitespace runs delimit words and
are discarded.  The accumulator holds the reversed current word. -/
def pySplitWsAux : List Char → Option (List Char) → List (List Char)
  | [], none => []
  | [], some w => [w.reverse]
  | c :: t, none =>
    if isPySpace c then pySplitWsAux t none else pySplitWsAux t (some [c])
  | c :: t, some w =>
    if isPySpace c then w.reverse :: pySplitWsAux t none
    else pySplitWsAux t (some (c :: w))

def pySplitWs (s : List Char) : List (List Char) := pySplitWsAux s none

structure ContentStats where
  word_count : Nat
  char_count : Nat
  deriving DecidableEq

/-- `compute_content_stats` (src/main.py:87-93): `len(text.split())` words
and `len(text)` characters (Python `len` on `str` counts codepoints). -/
def compute_content_stats (text : List Char) : ContentStats :=
  { word_count := (pySplitWs text).length, char_count := text.length }

/-! ## PDF creation-date parsing (src/main.py:39-49)

The source slices `date_str[2:16]` after a `D:` prefix check and feeds the
slice to `datetime.strptime(..., "%Y%m%d%H%M%S")`, absorbing `ValueError`
and `IndexError` into "absent".  CPython's `_strptime` compiles the format
to a regex — `%Y ↦ \d\d\d\d`, `%m ↦ 1[0-2]|0[1-9]|[1-9]`,
`%d ↦ 3[01]|[12]\d|0[1-9]|[1-9]| [1-9]` (the last alternative a literal
space then a digit), `%H ↦ 2[0-3]|[0-1]\d|\d`,
`%M ↦ [0-5]\d|\d`, `%S ↦ 6[0-1]|[0-5]\d|\d` — takes the first match in
backtracking priority order, raises if unmatched or if the match does not
consume the whole string ("unconverted data remains"), and finally builds
`datetime(...)`, which validates year ≥ 1, the day against the month
(with leap years) and second ≤ 59. -/

structure PyDateTime where
  year : Nat
  month : Nat
  day : Nat
  hour : Nat
  minute : Nat
  second : Nat
  deriving DecidableEq

/-- First alternative (in priority order) that produces a result. -/
def firstSome {α β : Type} (f : α → Option β) : List α → Option β
  | [] => none
  | a :: t =>
    match f a with
    | some b => some b
    | none => firstSome f t

def digitVal (c : Char) : Option Nat :=
  if isDigitChar c then some (c.toNat - 48) else none

/-- One digit whose value satisfies `p`. -/
def pDigit (p : Nat → Bool) (s : List Char) : Option (Nat × List Char) :=
  match s with
  | c :: t =>
    match digitVal c with
    | some v => if p v then some (v, t) else none
    | none => none
  | [] => none

/-- Two digits whose values satisfy `p1` and `p2`. -/
def pTwo (p1 p2 : Nat → Bool) (s : List Char) : Option (Nat × List Char) :=
  match s with
  | c1 :: c2 :: t =>
    match digitVal c1, digitVal c2 with
    | some a, some b => if p1 a && p2 b then some (10 * a + b, t) else none
    | _, _ => none
  | _ => none

/-- `%Y`: exactly four digits. -/
def pYear (s : List Char) : Option (Nat × List Char) :=
  match s with
  | a :: b :: c :: d :: t =>
    match digitVal a, digitVal b, digitVal c, digitVal d with
    | some w, some x, some y, some z => some (1000 * w + 100 * x + 10 * y + z, t)
    | _, _, _, _ => none
  | _ => none

def altsMonth : List (List Char → Option (Nat × List Char)) :=
  [pTwo (fun a => a == 1) (fun b => decide (b ≤ 2)),
   pTwo (fun a => a == 0) (fun b => decide (1 ≤ b)),
   pDigit (fun a => decide (1 ≤ a))]

/-- The final alternative of CPython's `%d` regex, a literal space
followed by a non-zero digit (`' [1-9]'`, kept in `_strptime` so that
`%c`-style space-padded days parse). -/
def pSpaceDay (s : List Char) : Option (Nat × List Char) :=
  match s with
  | ' ' :: c :: t =>
    match digitVal c with
    | some v => if decide (1 ≤ v) then some (v, t) else none
    | none => none
  | _ => none

def altsDay : List (List Char → Option (Nat × List Char)) :=
  [pTwo (fun a => a == 3) (fun b => decide (b ≤ 1)),
   pTwo (fun a => a == 1 || a == 2) (fun _ => true),
   pTwo (fun a => a == 0) (fun b => decide (1 ≤ b)),
   pDigit (fun a => decide (1 ≤ a)),
   pSpaceDay]

def altsHour : List (List Char → Option (Nat × List Char)) :=
  [pTwo (fun a => a == 2) (fun b => decide (b ≤ 3)),
   pTwo (fun a => decide (a ≤ 1)) (fun _ => true),
   pDigit (fun _ => true)]

def altsMinute : List (List Char → Option (Nat × List Char)) :=
  [pTwo (fun a => decide (a ≤ 5)) (fun _ => true),
   pDigit (fun _ => true)]

def altsSecond : List (List Char → Option (Nat × List Char)) :=
  [pTwo (fun a => a == 6) (fun b => decide (b ≤ 1)),
   pTwo (fun a => decide (a ≤ 5)) (fun _ => true),
   pDigit (fun _ => true)]

/-- Depth-first search over the field alternatives in regex priority
order; the first complete assignment is the regex engine's match. -/
def strptimeMatch (s : List Char) :
    Option ((Nat × Nat × Nat × Nat × Nat × Nat) × List Char) :=
  (pYear s).bind fun (y, s1) =>
  firstSome (fun am => (am s1).bind fun (mo, s2) =>
    firstSome (fun ad => (ad s2).bind fun (dy, s3) =>
      firstSome (fun ah => (ah s3).bind fun (h, s4) =>
        firstSome (fun ami => (ami s4).bind fun (mi, s5) =>
          firstSome (fun ase => (ase s5).map fun (se, s6) =>
              ((y, mo, dy, h, mi, se), s6))
            altsSecond) altsMinute) altsHour) altsDay) altsMonth

def isLeapYear (y : Nat) : Bool :=
  y % 4 == 0 && (y % 100 != 0 || y % 400 == 0)

def daysInMonth (y m : Nat) : Nat :=
  if m = 2 then (if isLeapYear y then 29 else 28)
  else if m = 4 ∨ m = 6 ∨ m = 9 ∨ m = 11 then 30
  else 31

/-- `datetime.strptime(s, "%Y%m%d%H%M%S")` as `Option` (exceptions are
`none`): regex match, whole-string-consumed check, then the `datetime`
constructor's range validation. -/
def pyStrptimeYmdHMS (s : List Char) : Option PyDateTime :=
  match strptimeMatch s with
  | none => none
  | some ((y, mo, dy, h, mi, se), rest) =>
    if rest = [] then
      if decide (1 ≤ y) && decide (y ≤ 9999) && decide (1 ≤ mo) &&
         decide (mo ≤ 12) && decide (1 ≤ dy) && decide (dy ≤ daysInMonth y mo) &&
         decide (h ≤ 23) && decide (mi ≤ 59) && decide (se ≤ 59)
      then some ⟨y, mo, dy, h, mi, se⟩
      else none
    else none

/-- The creation-date handling of `extract_text_from_pdf`
(src/main.py:39-49): parse only when the value starts with `D:`, on the
slice `[2:16]` (at most 14 characters after the prefix); every parse
failure yields `none` — the `try/except` absorbs it. -/
def parse_pdf_creation_date (s : List Char) : Option PyDateTime :=
  if s.take 2 = ['D', ':'] then pyStrptimeYmdHMS ((s.drop 2).take 14)
  else none

/-! ## Entity scanner (src/main.py:60-84)

`re.findall` scans left to right: it attempts a match at each position,
and on success continues scanning from the end of the match.  The two
patterns below are embedded as deterministic matchers; each determinisation
of the regex backtracking is justified in place. -/

/-- Greedy optional single-character element (`X?` for a one-character
class `X`): consume the head iff it belongs to the class.  Returns the
consumed piece and the remainder. -/
def optTake (p : Char → Bool) : List Char → List Char × List Char
  | [] => ([], [])
  | c :: t => if p c then ([c], t) else ([], c :: t)

/-- `\d{n}`: exactly `n` digits.  Returns the consumed digits and the
remainder. -/
def digitsTake : Nat → List Char → Option (List Char × List Char)
  | 0, s => some ([], s)
  | _ + 1, [] => none
  | n + 1, c :: t =>
    if isDigitChar c then (digitsTake n t).map (fun q => (c :: q.1, q.2))
    else none

/-- The phone pattern `\(?\d{3}\)?[-.\s]?\d{3}[-.\s]?\d{4}` matched at the
start of `s`.  Every optional element here is forced: after each of
`\(?`, `\)?`, `[-.\s]?` the regex requires a digit, and none of `(`, `)`
or a separator is a digit, so the greedy regex engine never has to give an
optional element back.  Returns the matched string and the rest. -/
def matchPhoneAt (s : List Char) : Option (List Char × List Char) :=
  let t1 := optTake (fun c => c == '(') s
  match digitsTake 3 t1.2 with
  | none => none
  | some d1 =>
    let t2 := optTake (fun c => c == ')') d1.2
    let t3 := optTake isPhoneSep t2.2
    match digitsTake 3 t3.2 with
    | none => none
    | some d2 =>
      let t4 := optTake isPhoneSep d2.2
      match digitsTake 4 t4.2 with
      | none => none
      | some d3 =>
        some (t1.1 ++ d1.1 ++ t2.1 ++ t3.1 ++ d2.1 ++ t4.1 ++ d3.1, d3.2)

/-- For the email domain part: index of the `.` at which
`[a-zA-Z0-9.-]+\.[a-zA-Z]{2,}` splits `dom`.  The `+` is greedy, so the
regex engine gives back characters from the right and takes the RIGHTMOST
index `j ≥ 1` such that `dom[j] = '.'` and at least two ASCII letters
follow it (the continuation after `[a-zA-Z]{2,}` is the end of the
pattern, so a candidate `j` fails only when the letter run is short). -/
def lastDotSplit (dom : List Char) : Option Nat :=
  ((List.range dom.length).filter (fun j =>
      decide (0 < j) && (dom.getD j ' ' == '.') &&
      decide (2 ≤ ((dom.drop (j + 1)).takeWhile isAsciiAlpha).length))).getLast?

/-- The email pattern `[a-zA-Z0-9._%+-]+@[a-zA-Z0-9.-]+\.[a-zA-Z]{2,}`
matched at the start of `s`.  The greedy local part is forced to the
maximal run of local characters (`@` is not a local character, so giving
characters back can never reach an `@`); the domain part backtracks to the
rightmost viable dot (`lastDotSplit`); the final `[a-zA-Z]{2,}` takes the
maximal letter run, which lies inside the domain run because every letter
is a domain character. -/
def matchEmailAt (s : List Char) : Option (List Char × List Char) :=
  let loc := s.takeWhile isLocalChar
  match loc, s.drop loc.length with
  | _ :: _, '@' :: s2 =>
    let dom := s2.takeWhile isDomChar
    match lastDotSplit dom with
    | some j =>
      let tld := (dom.drop (j + 1)).takeWhile isAsciiAlpha
      some (loc ++ '@' :: (dom.take j ++ '.' :: tld),
            ((dom.drop (j + 1)).dropWhile isAsciiAlpha) ++ s2.drop dom.length)
    | none => none
  | _, _ => none

/-- `re.findall`: scan left to right; on a match emit it and resume after
it, otherwise advance one character.  `fuel` bounds the recursion; both
matchers always consume at least one character on success, so fuel equal
to the string length is sufficient. -/
def findallAux (matchAt : List Char → Option (List Char × List Char)) :
    Nat → List Char → List (List Char)
  | 0, _ => []
  | _ + 1, [] => []
  | fuel + 1, c :: t =>
    match matchAt (c :: t) with
    | some q => q.1 :: findallAux matchAt fuel q.2
    | none => findallAux matchAt fuel t

def findallEmail (s : List Char) : List (List Char) :=
  findallAux matchEmailAt s.length s

def findallPhone (s : List Char) : List (List Char) :=
  findallAux matchPhoneAt s.length s

structure EntityResult where
  emails : List (List Char)
  phone_numbers : List (List Char)
  pii_found : Bool

/-- `extract_entities` (src/main.py:60-84) restricted to the fields any
verified property mentions.  `list(set(...))` deduplicates with arbitrary
order; dedup order is immaterial to every claim, which treat the
collections as sets.  The URL and date collections are extracted by the
source as well but no claim constrains them, so they are not modelled.
`pii_found` is `len(emails) > 0 or len(phone_numbers) > 0`. -/
def extract_entities (text : List Char) : EntityResult :=
  let emails := (findallEmail text).dedup
  let phone_numbers := (findallPhone text).dedup
  { emails, phone_numbers,
    pii_found := decide (0 < emails.length) || decide (0 < phone_numbers.length) }

/-! ## Stored records and the ingestion pipeline
(src/database.py:17-45, src/main.py:184-220)

`DocumentMetadata` columns relevant to the claims.  Timestamps
(`created_at`) are modelled as `Nat`, abstracting `datetime` as a totally
ordered type.  Nullable columns are `Option`.  The `urls_found` and
`dates_found` columns are not modelled (no claim constrains them). -/

structure StoredDoc where
  id : Nat
  filename : List Char
  title : Option (List Char)
  author : Option (List Char)
  pdf_created_at : Option PyDateTime
  page_count : Option Nat
  word_count : Nat
  char_count : Nat
  file_size : Nat
  extracted_text : Option (List Char)
  emails_found : List Char
  phone_numbers_found : List Char
  pii_found : Bool
  created_at : Nat

/-- Output of `extract_text_from_pdf` (src/main.py:26-57) as consumed by
`upload_file`; the PDF byte-stream decoding itself is the external PyPDF2
collaborator and is not modelled. -/
structure PdfData where
  text : List Char
  page_count : Nat
  title : Option (List Char)
  author : Option (List Char)
  pdf_created_at : Option PyDateTime

/-- The record assembled and persisted by `upload_file`
(src/main.py:199-214): entity collections are stored comma-joined, the
PII flag is taken from `extract_entities`, and storage assigns `id` and
`created_at`. -/
def upload_record (filename : List Char) (file_size : Nat) (pdf : PdfData)
    (newId now : Nat) : StoredDoc :=
  let entities := extract_entities pdf.text
  let stats := compute_content_stats pdf.text
  { id := newId
    filename
    title := pdf.title
    author := pdf.author
    pdf_created_at := pdf.pdf_created_at
    page_count := some pdf.page_count
    word_count := stats.word_count
    char_count := stats.char_count
    file_size
    extracted_text := some pdf.text
    emails_found := joinComma entities.emails
    phone_numbers_found := joinComma entities.phone_numbers
    pii_found := entities.pii_found
    created_at := now }

/-- The list projection (src/main.py:105-121): entity collections are
decoded with `parse_list` and only their sizes are exposed. -/
structure DocumentListResponse where
  id : Nat
  filename : List Char
  title : Option (List Char)
  author : Option (List Char)
  page_count : Option Nat
  word_count : Nat
  file_size : Nat
  pii_found : Bool
  emails_count : Nat
  phones_count : Nat
  created_at : Nat

def to_list_response (doc : StoredDoc) : DocumentListResponse :=
  { id := doc.id
    filename := doc.filename
    title := doc.title
    author := doc.author
    page_count := doc.page_count
    word_count := doc.word_count
    file_size := doc.file_size
    pii_found := doc.pii_found
    emails_count := (parse_list doc.emails_found).length
    phones_count := (parse_list doc.phone_numbers_found).length
    created_at := doc.created_at }

/-! ## Query engine (src/main.py:223-283) -/

structure ListFilters where
  pii_found : Option Bool
  from_date : Option Nat
  to_date : Option Nat
  author : Option (List Char)

/-- The conjunction of the optional filters of `get_documents`
(src/main.py:236-246).  `if author:` is Python truthiness, so an empty
author string disables the filter; `ilike` against a NULL column is not
satisfied. -/
def matchesFilters (f : ListFilters) (d : StoredDoc) : Bool :=
  (match f.pii_found with
   | none => true
   | some b => d.pii_found == b) &&
  (match f.from_date with
   | none => true
   | some t => decide (t ≤ d.created_at)) &&
  (match f.to_date with
   | none => true
   | some t => decide (d.created_at ≤ t)) &&
  (match f.author with
   | none => true
   | some a =>
     if a = [] then true
     else
       match d.author with
       | none => false
       | some da => likeM ('%' :: a ++ ['%']) da)

/-- The search predicate of `search_documents` (src/main.py:265-274):
`%q%` matched with `ilike` against four columns, OR-ed; NULL columns do
not match. -/
def matchesSearch (q : List Char) (d : StoredDoc) : Bool :=
  let pat := '%' :: q ++ ['%']
  (match d.extracted_text with
   | none => false
   | some t => likeM pat t) ||
  likeM pat d.filename ||
  (match d.title with
   | none => false
   | some t => likeM pat t) ||
  (match d.author with
   | none => false
   | some a => likeM pat a)

/-- `ORDER BY created_at DESC` modelled as a stable insertion sort (the
source promises no particular order among equal timestamps; any
permutation sorted descending by `created_at` is a faithful model). -/
def insertByCreatedDesc (d : StoredDoc) : List StoredDoc → List StoredDoc
  | [] => [d]
  | e :: t =>
    if decide (e.created_at < d.created_at) then d :: e :: t
    else e :: insertByCreatedDesc d t

def sortByCreatedDesc : List StoredDoc → List StoredDoc
  | [] => []
  | d :: t => insertByCreatedDesc d (sortByCreatedDesc t)

structure SearchResult where
  documents : List DocumentListResponse
  total : Nat
  query : Option (List Char)

/-- `get_documents` (src/main.py:223-254): filter, count the matches
BEFORE pagination, then order descending and apply offset/limit. -/
def get_documents (db : List StoredDoc) (f : ListFilters)
    (offset limit : Nat) : SearchResult :=
  let matching := db.filter (matchesFilters f)
  { documents :=
      (((sortByCreatedDesc matching).drop offset).take limit).map to_list_response
    total := matching.length
    query := none }

/-- `search_documents` (src/main.py:257-283): same shape, with the query
echoed in the envelope. -/
def search_documents (db : List StoredDoc) (q : List Char)
    (offset limit : Nat) : SearchResult :=
  let matching := db.filter (matchesSearch q)
  { documents :=
      (((sortByCreatedDesc matching).drop offset).take limit).map to_list_response
    total := matching.length
    query := some q }

structure DocumentStats where
  total_documents : Nat
  documents_with_pii : Nat
  total_emails_found : Nat
  total_phone_numbers_found : Nat
  total_pages_processed : Nat
  deriving DecidableEq

/-- `get_stats` (src/main.py:158-181): a fold over all stored records,
accumulating `(emails, phones, pages, pii)` exactly as the source's loop
does; `doc.page_count or 0` sends a missing (or zero) page count to 0. -/
def get_stats (documents : List StoredDoc) : DocumentStats :=
  let acc := documents.foldl
    (fun (a : Nat × Nat × Nat × Nat) doc =>
      (a.1 + (parse_list doc.emails_found).length,
       a.2.1 + (parse_list doc.phone_numbers_found).length,
       a.2.2.1 + (match doc.page_count with | none => 0 | some n => n),
       a.2.2.2 + (if doc.pii_found then 1 else 0)))
    (0, 0, 0, 0)
  { total_documents := documents.length
    documents_with_pii := acc.2.2.2
    total_emails_found := acc.1
    total_phone_numbers_found := acc.2.1
    total_pages_processed := acc.2.2.1 }

/-! ## Specification-side definitions

These definitions are written from the words of the specification (and of
the claims under scrutiny), to be compared with the behaviour of the code
embedding above. -/

/-- An optional single separator as the phone regex allows it:
absent, or one character from `[-.\s]`. -/
def IsSepOpt (x : List Char) : Prop :=
  x = [] ∨ ∃ c, x = [c] ∧ isPhoneSep c = true

/-- Exactly `n` ASCII digits. -/
def IsDigits (n : Nat) (d : List Char) : Prop :=
  d.length = n ∧ ∀ c ∈ d, isDigitChar c = true

/-- The shape every captured phone string actually has (amended claim):
ten digits grouped 3-3-4, each parenthesis around the first group
independently optional, an optional single separator from `[-.\s]`
between the groups. -/
def PhoneShape (m : List Char) : Prop :=
  ∃ o1 d1 o2 x1 d2 x2 d3,
    m = o1 ++ d1 ++ o2 ++ x1 ++ d2 ++ x2 ++ d3 ∧
    (o1 = [] ∨ o1 = ['(']) ∧ (o2 = [] ∨ o2 = [')']) ∧
    IsDigits 3 d1 ∧ IsDigits 3 d2 ∧ IsDigits 4 d3 ∧
    IsSepOpt x1 ∧ IsSepOpt x2

/-- A separator as claim C2 words it: one of `-`, `.`, space. -/
def claimedSep (c : Char) : Bool :=
  c == '-' || c == '.' || c == ' '

/-- Tail of the shape claim C2 asserts: optional claimed separator, three
digits, optional claimed separator, four digits, consuming everything. -/
def claimedTail (s : List Char) : Bool :=
  match digitsTake 3 (optTake claimedSep s).2 with
  | none => false
  | some d2 =>
    match digitsTake 4 (optTake claimedSep d2.2).2 with
    | none => false
    | some d3 => d3.2.isEmpty

/-- Decision procedure for the phone shape exactly as claim C2 states it:
ten digits grouped 3-3-4, parentheses around the first group either both
present or both absent, separators only from `-`, `.`, space.  (The
grammar is deterministic: no separator or parenthesis is a digit.) -/
def claimedPhoneCheck (m : List Char) : Bool :=
  match m with
  | '(' :: r =>
    match digitsTake 3 r with
    | some (_, ')' :: r2) => claimedTail r2
    | _ => false
  | _ =>
    match digitsTake 3 m with
    | some d1 => claimedTail d1.2
    | none => false

/-- `q` occurs in `s` as a substring up to ASCII case folding — the
spec's reading of the search and author predicates. -/
def CISubstring (q s : List Char) : Prop :=
  ∃ a b, lowerList s = a ++ lowerList q ++ b

/-- Executable form: case-insensitive substring occurrence. -/
def ciSubB (q s : List Char) : Bool :=
  anyDrop (fun t => (lowerList q).isPrefixOf t) (lowerList s)

/-- The search predicate as the spec words it: the query appears as a
case-insensitive substring of extracted text, filename, title or author
(OR across the four fields; absent fields cannot match). -/
def specSearchMatch (q : List Char) (d : StoredDoc) : Bool :=
  (match d.extracted_text with
   | none => false
   | some t => ciSubB q t) ||
  ciSubB q d.filename ||
  (match d.title with
   | none => false
   | some t => ciSubB q t) ||
  (match d.author with
   | none => false
   | some a => ciSubB q a)

/-- Number of maximal non-empty runs of non-whitespace characters: the
spec-side word count.  The flag records whether the previous character
was part of a run. -/
def countRunsAux : Bool → List Char → Nat
  | _, [] => 0
  | inRun, c :: t =>
    if isPySpace c then countRunsAux false t
    else (if inRun then 0 else 1) + countRunsAux true t

def countRuns (s : List Char) : Nat := countRunsAux false s

/-! ## Helper lemmas -/

/-- A token as the comma-joined storage encoding can faithfully carry it:
non-empty, comma-free, and not starting or ending with whitespace. -/
def GoodToken (m : List Char) : Prop :=
  m ≠ [] ∧ ',' ∉ m ∧
  (∀ c, m.head? = some c → isPySpace c = false) ∧
  (∀ c, m.getLast? = some c → isPySpace c = false)

theorem localChar_not_space (c : Char) (h : isLocalChar c = true) :
    isPySpace c = false := by
  rw [Bool.eq_false_iff]
  intro hs
  simp only [isLocalChar, isAsciiAlpha, isDigitChar, Bool.or_eq_true,
    Bool.and_eq_true, decide_eq_true_eq, beq_iff_eq] at h
  simp only [isPySpace, Bool.or_eq_true, Bool.and_eq_true, decide_eq_true_eq,
    beq_iff_eq] at hs
  omega

theorem digitChar_not_space (c : Char) (h : isDigitChar c = true) :
    isPySpace c = false := by
  apply localChar_not_space
  simp only [isLocalChar, Bool.or_eq_true]
  tauto

theorem alphaChar_not_space (c : Char) (h : isAsciiAlpha c = true) :
    isPySpace c = false := by
  apply localChar_not_space
  simp only [isLocalChar, Bool.or_eq_true]
  tauto

theorem localChar_ne_comma (c : Char) (h : isLocalChar c = true) : c ≠ ',' := by
  intro he
  subst he
  exact absurd h (by decide)

theorem domChar_ne_comma (c : Char) (h : isDomChar c = true) : c ≠ ',' := by
  intro he
  subst he
  exact absurd h (by decide)

theorem digitChar_ne_comma (c : Char) (h : isDigitChar c = true) : c ≠ ',' := by
  intro he
  subst he
  exact absurd h (by decide)

theorem phoneSep_ne_comma (c : Char) (h : isPhoneSep c = true) : c ≠ ',' := by
  intro he
  subst he
  exact absurd h (by decide)

theorem dropWhile_space_eq_self (l : List Char)
    (h : ∀ c, l.head? = some c → isPySpace c = false) :
    l.dropWhile isPySpace = l := by
  cases l with
  | nil => rfl
  | cons c t => simp [List.dropWhile_cons, h c rfl]

theorem pyStrip_eq_self (l : List Char)
    (h1 : ∀ c, l.head? = some c → isPySpace c = false)
    (h2 : ∀ c, l.getLast? = some c → isPySpace c = false) :
    pyStrip l = l := by
  unfold pyStrip
  rw [dropWhile_space_eq_self l h1]
  rw [dropWhile_space_eq_self l.reverse (fun c hc => h2 c (by rwa [List.head?_reverse] at hc))]
  exact l.reverse_reverse

theorem splitComma_no_comma (x : List Char) (hx : ',' ∉ x) :
    splitComma x = [x] := by
  induction x with
  | nil => rfl
  | cons c t ih =>
    have hc : ¬ c = ',' := fun h => hx (h ▸ List.mem_cons_self c t)
    have ht : ',' ∉ t := fun h => hx (List.mem_cons_of_mem c h)
    simp [splitComma, hc, ih ht]

theorem splitComma_append (x r : List Char) (hx : ',' ∉ x) :
    splitComma (x ++ ',' :: r) = x :: splitComma r := by
  induction x with
  | nil => simp [splitComma]
  | cons c t ih =>
    have hc : ¬ c = ',' := fun h => hx (h ▸ List.mem_cons_self c t)
    have ht : ',' ∉ t := fun h => hx (List.mem_cons_of_mem c h)
    simp [splitComma, hc, ih ht]

theorem joinComma_ne_nil (x : List Char) (t : List (List Char)) (hx : x ≠ []) :
    joinComma (x :: t) ≠ [] := by
  cases t with
  | nil => simpa [joinComma] using hx
  | cons y t' =>
    simp only [joinComma]
    exact List.append_ne_nil_of_left_ne_nil hx _

theorem splitComma_joinComma (xs : List (List Char))
    (h : ∀ x ∈ xs, ',' ∉ x) (hne : xs ≠ []) :
    splitComma (joinComma xs) = xs := by
  induction xs with
  | nil => exact absurd rfl hne
  | cons x t ih =>
    cases t with
    | nil => exact splitComma_no_comma x (h x (List.mem_cons_self x []))
    | cons y t' =>
      have hx : ',' ∉ x := h x (List.mem_cons_self x _)
      have ht : ∀ z ∈ y :: t', ',' ∉ z := fun z hz => h z (List.mem_cons_of_mem x hz)
      simp only [joinComma]
      rw [splitComma_append x _ hx, ih ht (by simp)]

/-- Round trip of the storage encoding on well-behaved tokens: join with
commas, split back, strip, drop empties — the identity. -/
theorem parse_list_joinComma (xs : List (List Char))
    (h : ∀ x ∈ xs, GoodToken x) :
    parse_list (joinComma xs) = xs := by
  cases xs with
  | nil => simp [joinComma, parse_list]
  | cons x t =>
    have hgx := h x (List.mem_cons_self x t)
    have hne := joinComma_ne_nil x t hgx.1
    rw [parse_list, if_neg hne]
    rw [splitComma_joinComma (x :: t) (fun z hz => (h z hz).2.1) (by simp)]
    have hmap : (x :: t).map pyStrip = x :: t := by
      have : ∀ z ∈ x :: t, pyStrip z = z := fun z hz =>
        pyStrip_eq_self z (h z hz).2.2.1 (h z hz).2.2.2
      calc (x :: t).map pyStrip = (x :: t).map id := List.map_congr_left this
        _ = x :: t := List.map_id _
    rw [hmap]
    exact List.filter_eq_self.mpr (fun a ha => by
      simpa using (h a ha).1)

theorem optTake_spec (p : Char → Bool) (s : List Char) :
    ((optTake p s).1 = [] ∧ (optTake p s).2 = s) ∨
    (∃ c, (optTake p s).1 = [c] ∧ p c = true ∧ s = c :: (optTake p s).2) := by
  cases s with
  | nil => exact Or.inl ⟨rfl, rfl⟩
  | cons c t =>
    by_cases h : p c = true
    · exact Or.inr ⟨c, by simp [optTake, h]⟩
    · left
      simp [optTake, h]

theorem digitsTake_spec (n : Nat) :
    ∀ s d r, digitsTake n s = some (d, r) →
      d.length = n ∧ (∀ c ∈ d, isDigitChar c = true) ∧ s = d ++ r := by
  induction n with
  | zero =>
    intro s d r h
    simp only [digitsTake, Option.some.injEq, Prod.mk.injEq] at h
    obtain ⟨h1, h2⟩ := h
    subst h1; subst h2
    simp
  | succ n ih =>
    intro s d r h
    cases s with
    | nil => simp [digitsTake] at h
    | cons c t =>
      simp only [digitsTake] at h
      by_cases hc : isDigitChar c = true
      · rw [if_pos hc, Option.map_eq_some'] at h
        obtain ⟨⟨d', r'⟩, hq, he⟩ := h
        obtain ⟨hl, hd, ht⟩ := ih t d' r' hq
        simp only [Prod.mk.injEq] at he
        obtain ⟨he1, he2⟩ := he
        subst he1; subst he2; subst ht
        refine ⟨by simp [hl], ?_, by simp⟩
        intro a ha
        rcases List.mem_cons.mp ha with h | h
        · exact h ▸ hc
        · exact hd a h
      · rw [if_neg hc] at h
        exact absurd h (by simp)

theorem matchPhoneAt_shape (s m r : List Char)
    (h : matchPhoneAt s = some (m, r)) : PhoneShape m := by
  simp only [matchPhoneAt] at h
  split at h
  · exact absurd h (by simp)
  case h_2 d1 heq1 =>
    split at h
    · exact absurd h (by simp)
    case h_2 d2 heq2 =>
      split at h
      · exact absurd h (by simp)
      case h_2 d3 heq3 =>
        simp only [Option.some.injEq, Prod.mk.injEq] at h
        obtain ⟨hm, _⟩ := h
        obtain ⟨hl1, hd1, _⟩ := digitsTake_spec 3 _ _ _ heq1
        obtain ⟨hl2, hd2, _⟩ := digitsTake_spec 3 _ _ _ heq2
        obtain ⟨hl3, hd3, _⟩ := digitsTake_spec 4 _ _ _ heq3
        refine ⟨(optTake (fun c => c == '(') s).1, d1.1,
          (optTake (fun c => c == ')') d1.2).1,
          (optTake isPhoneSep (optTake (fun c => c == ')') d1.2).2).1,
          d2.1, (optTake isPhoneSep d2.2).1, d3.1, hm.symm, ?_, ?_, ?_, ?_, ?_, ?_, ?_⟩
        · rcases optTake_spec (fun c => c == '(') s with ⟨h1, _⟩ | ⟨c, h1, hp, _⟩
          · exact Or.inl h1
          · exact Or.inr (by rw [h1, beq_iff_eq.mp hp])
        · rcases optTake_spec (fun c => c == ')') d1.2 with ⟨h1, _⟩ | ⟨c, h1, hp, _⟩
          · exact Or.inl h1
          · exact Or.inr (by rw [h1, beq_iff_eq.mp hp])
        · exact ⟨hl1, hd1⟩
        · exact ⟨hl2, hd2⟩
        · exact ⟨hl3, hd3⟩
        · rcases optTake_spec isPhoneSep (optTake (fun c => c == ')') d1.2).2 with
            ⟨h1, _⟩ | ⟨c, h1, hp, _⟩
          · exact Or.inl h1
          · exact Or.inr ⟨c, h1, hp⟩
        · rcases optTake_spec isPhoneSep d2.2 with ⟨h1, _⟩ | ⟨c, h1, hp, _⟩
          · exact Or.inl h1
          · exact Or.inr ⟨c, h1, hp⟩

theorem phoneShape_goodToken (m : List Char) (h : PhoneShape m) : GoodToken m := by
  obtain ⟨o1, d1, o2, x1, d2, x2, d3, hm, ho1, ho2, hd1, hd2, hd3, hx1, hx2⟩ := h
  have hd1ne : d1 ≠ [] := by
    intro he
    rw [he] at hd1
    exact absurd hd1.1 (by simp)
  have hd3ne : d3 ≠ [] := by
    intro he
    rw [he] at hd3
    exact absurd hd3.1 (by simp)
  refine ⟨?_, ?_, ?_, ?_⟩
  · intro he
    rw [hm] at he
    exact hd3ne (List.append_eq_nil.mp he).2
  · intro hc
    rw [hm] at hc
    simp only [List.mem_append] at hc
    rcases hc with ((((((hc | hc) | hc) | hc) | hc) | hc) | hc)
    · rcases ho1 with h1 | h1
      · rw [h1] at hc; simp at hc
      · rw [h1] at hc
        simp only [List.mem_singleton] at hc
        exact absurd hc (by decide)
    · exact digitChar_ne_comma ',' (hd1.2 ',' hc) rfl
    · rcases ho2 with h1 | h1
      · rw [h1] at hc; simp at hc
      · rw [h1] at hc
        simp only [List.mem_singleton] at hc
        exact absurd hc (by decide)
    · rcases hx1 with h1 | ⟨c, h1, hp⟩
      · rw [h1] at hc; simp at hc
      · rw [h1] at hc
        simp only [List.mem_singleton] at hc
        cases hc
        exact absurd hp (by decide)
    · exact digitChar_ne_comma ',' (hd2.2 ',' hc) rfl
    · rcases hx2 with h1 | ⟨c, h1, hp⟩
      · rw [h1] at hc; simp at hc
      · rw [h1] at hc
        simp only [List.mem_singleton] at hc
        cases hc
        exact absurd hp (by decide)
    · exact digitChar_ne_comma ',' (hd3.2 ',' hc) rfl
  · intro c hc
    rcases ho1 with h1 | h1
    · rw [hm, h1, List.nil_append] at hc
      cases d1 with
      | nil => exact absurd rfl hd1ne
      | cons a t =>
        simp only [List.cons_append, List.head?_cons, Option.some.injEq] at hc
        exact hc ▸ digitChar_not_space a (hd1.2 a (List.mem_cons_self a t))
    · rw [hm, h1] at hc
      simp only [List.cons_append, List.head?_cons, Option.some.injEq] at hc
      rw [← hc]
      decide
  · intro c hc
    rw [hm] at hc
    rw [List.getLast?_append_of_ne_nil _ hd3ne] at hc
    exact digitChar_not_space c (hd3.2 c (List.mem_of_mem_getLast? hc))

theorem matchPhoneAt_good (s m r : List Char)
    (h : matchPhoneAt s = some (m, r)) : GoodToken m :=
  phoneShape_goodToken m (matchPhoneAt_shape s m r h)

/-- Characters of a captured email string: local characters, `@`, domain
characters or letters — and its head is a local character, its last a
letter. -/
theorem matchEmailAt_good (s m r : List Char)
    (h : matchEmailAt s = some (m, r)) : GoodToken m := by
  simp only [matchEmailAt] at h
  split at h
  case h_1 a loc' s2 hloc hdrop =>
    split at h
    case h_1 j hj =>
      simp only [Option.some.injEq, Prod.mk.injEq] at h
      obtain ⟨hm, _⟩ := h
      have hdomsub : ∀ c ∈ (s2.takeWhile isDomChar).take j, isDomChar c = true :=
        fun c hc => List.mem_takeWhile_imp (List.mem_of_mem_take hc)
      have hlocsub : ∀ c ∈ (a :: loc'), isLocalChar c = true := by
        rw [← hloc]
        exact fun c hc => List.mem_takeWhile_imp hc
      have htldsub : ∀ c ∈ ((s2.takeWhile isDomChar).drop (j + 1)).takeWhile isAsciiAlpha,
          isAsciiAlpha c = true := fun c hc => List.mem_takeWhile_imp hc
      have htldne : ((s2.takeWhile isDomChar).drop (j + 1)).takeWhile isAsciiAlpha ≠ [] := by
        have hmem := List.mem_of_mem_getLast? hj
        rw [List.mem_filter] at hmem
        have := hmem.2
        simp only [Bool.and_eq_true, decide_eq_true_eq] at this
        intro he
        rw [he] at this
        simp at this
      rw [hloc] at hm
      refine ⟨?_, ?_, ?_, ?_⟩
      · rw [← hm]
        simp
      · intro hc
        rw [← hm] at hc
        simp only [List.mem_append, List.mem_cons] at hc
        rcases hc with (hc | hc) | hc | hc | hc | hc
        · exact localChar_ne_comma a (hlocsub a (List.mem_cons_self a loc')) hc.symm
        · exact localChar_ne_comma ',' (hlocsub ',' (List.mem_cons_of_mem a hc)) rfl
        · exact absurd hc.symm (by decide : ¬ ('@' : Char) = ',')
        · exact domChar_ne_comma ',' (hdomsub ',' hc) rfl
        · exact absurd hc.symm (by decide : ¬ ('.' : Char) = ',')
        · exact localChar_ne_comma ',' (by
            have := htldsub ',' hc
            simp only [isLocalChar, Bool.or_eq_true]
            tauto) rfl
      · intro c hc
        rw [← hm] at hc
        simp only [List.cons_append, List.head?_cons, Option.some.injEq] at hc
        exact hc ▸ localChar_not_space a (hlocsub a (List.mem_cons_self a loc'))
      · intro c hc
        rw [← hm] at hc
        rw [show (a :: loc') ++ '@' :: ((s2.takeWhile isDomChar).take j ++
              '.' :: ((s2.takeWhile isDomChar).drop (j + 1)).takeWhile isAsciiAlpha) =
            ((a :: loc') ++ '@' :: (s2.takeWhile isDomChar).take j ++ ['.']) ++
              ((s2.takeWhile isDomChar).drop (j + 1)).takeWhile isAsciiAlpha by
          simp] at hc
        rw [List.getLast?_append_of_ne_nil _ htldne] at hc
        exact alphaChar_not_space c (htldsub c (List.mem_of_mem_getLast? hc))
    case h_2 => exact absurd h (by simp)
  case h_2 => exact absurd h (by simp)

/-- Every string emitted by `findallAux` is a string matched by `matchAt`. -/
theorem findallAux_prop (matchAt : List Char → Option (List Char × List Char))
    (P : List Char → Prop)
    (hm : ∀ s q, matchAt s = some q → P q.1) :
    ∀ fuel s m, m ∈ findallAux matchAt fuel s → P m := by
  intro fuel
  induction fuel with
  | zero => intro s m h; simp [findallAux] at h
  | succ n ih =>
    intro s m h
    cases s with
    | nil => simp [findallAux] at h
    | cons c t =>
      simp only [findallAux] at h
      cases hma : matchAt (c :: t) with
      | none =>
        rw [hma] at h
        exact ih t m h
      | some q =>
        rw [hma] at h
        rcases List.mem_cons.mp h with he | hmem
        · exact he ▸ hm (c :: t) q hma
        · exact ih q.2 m hmem

theorem extract_emails_good (text : List Char) :
    ∀ m ∈ (extract_entities text).emails, GoodToken m := by
  intro m hmem
  have : m ∈ findallEmail text := List.mem_dedup.mp hmem
  exact findallAux_prop matchEmailAt GoodToken
    (fun s q hq => matchEmailAt_good s q.1 q.2 hq) _ _ m this

theorem extract_phones_good (text : List Char) :
    ∀ m ∈ (extract_entities text).phone_numbers, GoodToken m := by
  intro m hmem
  have : m ∈ findallPhone text := List.mem_dedup.mp hmem
  exact findallAux_prop matchPhoneAt GoodToken
    (fun s q hq => matchPhoneAt_good s q.1 q.2 hq) _ _ m this

theorem extract_phones_shape (text : List Char) :
    ∀ m ∈ (extract_entities text).phone_numbers, PhoneShape m := by
  intro m hmem
  have : m ∈ findallPhone text := List.mem_dedup.mp hmem
  exact findallAux_prop matchPhoneAt PhoneShape
    (fun s q hq => matchPhoneAt_shape s q.1 q.2 hq) _ _ m this

theorem anyDrop_iff (f : List Char → Bool) (s : List Char) :
    anyDrop f s = true ↔ ∃ n, f (s.drop n) = true := by
  induction s with
  | nil =>
    constructor
    · intro h
      exact ⟨0, h⟩
    · intro ⟨n, h⟩
      rwa [List.drop_nil] at h
  | cons c t ih =>
    simp only [anyDrop, Bool.or_eq_true]
    constructor
    · rintro (h | h)
      · exact ⟨0, h⟩
      · obtain ⟨n, hn⟩ := ih.mp h
        exact ⟨n + 1, hn⟩
    · rintro ⟨n, hn⟩
      cases n with
      | zero => exact Or.inl hn
      | succ n => exact Or.inr (ih.mpr ⟨n, hn⟩)

theorem likeM_pct_cons (p s : List Char) :
    likeM ('%' :: p) s = anyDrop (likeM p) s := by
  simp [likeM]

theorem likeM_pct_nil (s : List Char) : likeM ['%'] s = true := by
  rw [likeM_pct_cons]
  induction s with
  | nil => simp [anyDrop, likeM]
  | cons c t ih =>
    show (likeM [] (c :: t) || anyDrop (likeM []) t) = true
    rw [ih]
    simp

theorem likeM_literal (q : List Char) (hq : ∀ c ∈ q, c ≠ '%' ∧ c ≠ '_') :
    ∀ (p s : List Char),
      (likeM (q ++ p) s = true ↔
        ∃ s1 s2, s = s1 ++ s2 ∧ lowerList s1 = lowerList q ∧ likeM p s2 = true) := by
  induction q with
  | nil =>
    intro p s
    constructor
    · intro h
      exact ⟨[], s, rfl, rfl, h⟩
    · rintro ⟨s1, s2, hs, hl, hp⟩
      have hs1 : s1 = [] := by
        have := congrArg List.length hl
        simp only [lowerList, List.length_map, List.length_nil] at this
        exact List.eq_nil_of_length_eq_zero this
      subst hs1
      rw [List.nil_append] at hs
      rw [List.nil_append, hs]
      exact hp
  | cons c q' ih =>
    intro p s
    have hc := hq c (List.mem_cons_self c q')
    have hq' : ∀ a ∈ q', a ≠ '%' ∧ a ≠ '_' := fun a ha => hq a (List.mem_cons_of_mem c ha)
    rw [List.cons_append]
    simp only [likeM, if_neg hc.1, if_neg hc.2]
    cases s with
    | nil =>
      constructor
      · intro h
        exact absurd h (by simp)
      · rintro ⟨s1, s2, hs, hl, _⟩
        have hs1 : s1 ≠ [] := by
          intro he
          rw [he] at hl
          have := congrArg List.length hl
          simp [lowerList] at this
        cases s1 with
        | nil => exact absurd rfl hs1
        | cons a t => simp at hs
    | cons d t =>
      rw [Bool.and_eq_true, beq_iff_eq]
      rw [ih hq' p t]
      constructor
      · rintro ⟨he, s1, s2, hs, hl, hp⟩
        exact ⟨d :: s1, s2, by rw [hs, List.cons_append],
          by simp only [lowerList, List.map_cons] at hl ⊢; rw [hl, he], hp⟩
      · rintro ⟨s1, s2, hs, hl, hp⟩
        cases s1 with
        | nil =>
          rw [List.nil_append] at hs
          have := congrArg List.length hl
          simp [lowerList] at this
        | cons a t' =>
          rw [List.cons_append, List.cons.injEq] at hs
          obtain ⟨ha, ht⟩ := hs
          simp only [lowerList, List.map_cons, List.cons.injEq] at hl
          subst ha
          exact ⟨hl.1.symm, t', s2, ht, hl.2, hp⟩

/-- For a wildcard-free query `q`, the pattern `%q%` under SQL `LIKE` is
exactly case-insensitive substring occurrence. -/
theorem likeM_contains (q : List Char) (hq : ∀ c ∈ q, c ≠ '%' ∧ c ≠ '_')
    (s : List Char) :
    likeM ('%' :: q ++ ['%']) s = true ↔ CISubstring q s := by
  rw [show ('%' :: q ++ ['%'] : List Char) = '%' :: (q ++ ['%']) by simp]
  rw [likeM_pct_cons, anyDrop_iff]
  constructor
  · rintro ⟨n, hn⟩
    obtain ⟨s1, s2, hs, hl, _⟩ := (likeM_literal q hq ['%'] (s.drop n)).mp hn
    refine ⟨lowerList (s.take n), lowerList s2, ?_⟩
    have hdec : s = s.take n ++ s1 ++ s2 := by
      rw [List.append_assoc, ← hs, List.take_append_drop]
    calc lowerList s = lowerList (s.take n ++ s1 ++ s2) := congrArg lowerList hdec
      _ = lowerList (s.take n) ++ lowerList s1 ++ lowerList s2 := by
        simp [lowerList]
      _ = lowerList (s.take n) ++ lowerList q ++ lowerList s2 := by rw [hl]
  · rintro ⟨a, b, hab⟩
    have : s.map lowerChar = a ++ (lowerList q ++ b) := by
      rw [← List.append_assoc]
      exact hab
    obtain ⟨u, v, huv, hu, hv⟩ := List.map_eq_append_iff.mp this
    obtain ⟨w, x, hwx, hw, hx⟩ := List.map_eq_append_iff.mp hv
    refine ⟨u.length, (likeM_literal q hq ['%'] (s.drop u.length)).mpr
      ⟨w, x, ?_, hw, likeM_pct_nil x⟩⟩
    rw [huv, List.drop_left, hwx]

theorem ciSubB_iff (q s : List Char) : ciSubB q s = true ↔ CISubstring q s := by
  unfold ciSubB
  rw [anyDrop_iff]
  constructor
  · rintro ⟨n, hn⟩
    obtain ⟨t, ht⟩ := List.isPrefixOf_iff_prefix.mp hn
    refine ⟨(lowerList s).take n, t, ?_⟩
    calc lowerList s
        = (lowerList s).take n ++ (lowerList s).drop n :=
          (List.take_append_drop n (lowerList s)).symm
      _ = (lowerList s).take n ++ (lowerList q ++ t) := by rw [ht]
      _ = (lowerList s).take n ++ lowerList q ++ t := by rw [List.append_assoc]
  · rintro ⟨a, b, hab⟩
    refine ⟨a.length, List.isPrefixOf_iff_prefix.mpr ⟨b, ?_⟩⟩
    rw [hab, List.append_assoc, List.drop_left]

theorem likeM_eq_ciSubB (q : List Char) (hq : ∀ c ∈ q, c ≠ '%' ∧ c ≠ '_')
    (s : List Char) : likeM ('%' :: q ++ ['%']) s = ciSubB q s := by
  rw [Bool.eq_iff_iff, likeM_contains q hq s, ciSubB_iff]

theorem matchesSearch_eq_spec (q : List Char)
    (hq : ∀ c ∈ q, c ≠ '%' ∧ c ≠ '_') (d : StoredDoc) :
    matchesSearch q d = specSearchMatch q d := by
  have hL : ∀ t : List Char, likeM ('%' :: q ++ ['%']) t = ciSubB q t :=
    likeM_eq_ciSubB q hq
  simp only [matchesSearch, specSearchMatch, hL]

theorem insertByCreatedDesc_perm (d : StoredDoc) (l : List StoredDoc) :
    List.Perm (insertByCreatedDesc d l) (d :: l) := by
  induction l with
  | nil => exact List.Perm.refl _
  | cons e t ih =>
    simp only [insertByCreatedDesc]
    split
    · exact List.Perm.refl _
    · exact (ih.cons e).trans (List.Perm.swap d e t)

theorem sortByCreatedDesc_perm (l : List StoredDoc) :
    List.Perm (sortByCreatedDesc l) l := by
  induction l with
  | nil => exact List.Perm.refl _
  | cons d t ih =>
    exact (insertByCreatedDesc_perm d (sortByCreatedDesc t)).trans (ih.cons d)

/-- Closed form of the `get_stats` fold. -/
theorem get_stats_foldl (docs : List StoredDoc) :
    ∀ a : Nat × Nat × Nat × Nat,
      docs.foldl
        (fun (a : Nat × Nat × Nat × Nat) doc =>
          (a.1 + (parse_list doc.emails_found).length,
           a.2.1 + (parse_list doc.phone_numbers_found).length,
           a.2.2.1 + (match doc.page_count with | none => 0 | some n => n),
           a.2.2.2 + (if doc.pii_found then 1 else 0))) a =
      (a.1 + (docs.map (fun d => (parse_list d.emails_found).length)).sum,
       a.2.1 + (docs.map (fun d => (parse_list d.phone_numbers_found).length)).sum,
       a.2.2.1 + (docs.map (fun d => match d.page_count with | none => 0 | some n => n)).sum,
       a.2.2.2 + (docs.filter (fun d => d.pii_found)).length) := by
  induction docs with
  | nil => intro a; simp
  | cons d t ih =>
    intro a
    rw [List.foldl_cons, ih]
    simp only [List.map_cons, List.sum_cons, List.filter_cons]
    refine Prod.ext ?_ (Prod.ext ?_ (Prod.ext ?_ ?_))
    · simp; omega
    · simp; omega
    · simp; omega
    · by_cases hp : d.pii_found = true
      · simp [hp]; omega
      · simp only [Bool.not_eq_true] at hp
        simp [hp]

theorem pySplitWsAux_length (s : List Char) :
    ∀ w : List Char,
      (pySplitWsAux s (some w)).length = countRunsAux true s + 1 ∧
      (pySplitWsAux s none).length = countRunsAux false s := by
  induction s with
  | nil =>
    intro w
    simp [pySplitWsAux, countRunsAux]
  | cons c t ih =>
    intro w
    by_cases hc : isPySpace c = true
    · simp only [pySplitWsAux, countRunsAux, if_pos hc]
      constructor
      · simp only [List.length_cons, (ih []).2]
      · exact (ih []).2
    · simp only [pySplitWsAux, countRunsAux, if_neg hc]
      constructor
      · rw [(ih (c :: w)).1]
        simp
      · rw [(ih [c]).1]
        simp
        omega

theorem pySplitWs_length (s : List Char) : (pySplitWs s).length = countRuns s :=
  (pySplitWsAux_length s []).2

/-! ## Concrete fixtures used by witnesses and counterexamples -/

/-- The worked example text of spec §8. -/
def exampleText : List Char :=
  "Contact: a@b.com or (415) 555-1212. See https://x.io/y on 2024-01-05.".toList

def wdoc1 : StoredDoc :=
  ⟨1, "a.pdf".toList, none, none, none, some 1, 0, 0, 0, none, [], [], false, 10⟩

def wdoc2 : StoredDoc :=
  ⟨2, "b.pdf".toList, none, none, none, some 1, 0, 0, 0, none, [], [], false, 5⟩

def wfilters : ListFilters := ⟨none, none, none, none⟩

def cx6doc : StoredDoc :=
  ⟨1, "a.pdf".toList, none, none, none, some 1, 0, 0, 0, none, [], [], false, 0⟩

def w6doc : StoredDoc :=
  ⟨7, "r.pdf".toList, none, some ("Ada".toList), none, some 1, 0, 0, 0, none, [], [],
   false, 3⟩

/-! ## Claim theorems -/

/-- Claim C1: for every input text, the record assembled and persisted by
the ingestion pipeline has `pii_found` true exactly when its persisted
(and decoded) email collection or phone-number collection is non-empty;
the flag is computed from those collections and from nothing else. -/
theorem C1_pii_flag_exact (text filename : List Char) (file_size pdf_pc newId now : Nat)
    (title author : Option (List Char)) (pcd : Option PyDateTime) :
    ((upload_record filename file_size ⟨text, pdf_pc, title, author, pcd⟩ newId now).pii_found
        = true ↔
      (parse_list (upload_record filename file_size ⟨text, pdf_pc, title, author, pcd⟩
          newId now).emails_found ≠ [] ∨
       parse_list (upload_record filename file_size ⟨text, pdf_pc, title, author, pcd⟩
          newId now).phone_numbers_found ≠ [])) := by
  simp only [upload_record]
  rw [parse_list_joinComma _ (extract_emails_good text),
      parse_list_joinComma _ (extract_phones_good text)]
  simp only [extract_entities, Bool.or_eq_true, decide_eq_true_eq, List.length_pos]

/-- Claim C2 counterexample: the scanner captures `415)\t555-1212` — a
close parenthesis without an open one and a TAB separator, refuting "both
parens present or both absent" and "separators from `{-, ., space}`" —
and on `12345678901` it captures the first ten digits of an eleven-digit
run, refuting "never captures a digit sequence that is part of a longer
digit run". -/
theorem C2_counterexample :
    ((extract_entities ("415)\t555-1212".toList)).phone_numbers =
        ["415)\t555-1212".toList] ∧
      claimedPhoneCheck ("415)\t555-1212".toList) = false) ∧
    (extract_entities ("12345678901".toList)).phone_numbers =
      ["1234567890".toList] := by
  decide

/-- Claim C2 (amended): every captured phone string consists of ten ASCII
digits grouped 3-3-4 with each parenthesis around the first group
independently optional and with optional single-character separators from
the class `[-.\s]` (any whitespace, not only space) between groups; on the
spec's example text the captured phone collection is exactly
`{"(415) 555-1212"}`. -/
theorem C2_phone_shape_amended :
    (∀ text m, m ∈ (extract_entities text).phone_numbers → PhoneShape m) ∧
    (extract_entities exampleText).phone_numbers = ["(415) 555-1212".toList] := by
  constructor
  · exact fun text m hm => extract_phones_shape text m hm
  · decide

theorem C2_phone_shape_witness :
    ("(415) 555-1212".toList ∈ (extract_entities exampleText).phone_numbers) ∧
    PhoneShape ("(415) 555-1212".toList) :=
  ⟨by decide, C2_phone_shape_amended.1 exampleText _ (by decide)⟩

/-- Claim C3 counterexample: the creation-date value `D:2023615120000`
has only thirteen characters after the prefix — a "wrong length" for the
fixed format `YYYYMMDDHHMMSS` — yet the extractor parses it successfully
(Python's strptime accepts a single-digit month), so a wrong length does
not always yield an absent timestamp. -/
theorem C3_counterexample :
    parse_pdf_creation_date ("D:2023615120000".toList) =
      some ⟨2023, 6, 15, 12, 0, 0⟩ ∧
    ("2023615120000".toList).length ≠ 14 := by
  decide

/-- Claim C3 (amended): the extractor parses a creation date only when the
value begins with `D:`, taking at most the first 14 characters after the
prefix and handing them to Python `strptime` with format `%Y%m%d%H%M%S`,
whose field semantics (4-digit year; month, day, hour, minute, second each
allowed to match one digit, and the day also a space followed by a digit)
also accept certain strings shorter than 14 characters or with a
space-padded day; every parse failure yields an absent timestamp (the
`try/except` absorbs the exception, modelled by totality of the `Option`
result); `D:20230615120000Z` parses to 2023-06-15T12:00:00,
`D:202312 1120000` parses to 2023-12-01T12:00:00, and `D:bad` parses to
absent. -/
theorem C3_creation_date_amended :
    (∀ s : List Char, s.take 2 ≠ ['D', ':'] → parse_pdf_creation_date s = none) ∧
    (∀ s : List Char,
      parse_pdf_creation_date (['D', ':'] ++ s) = pyStrptimeYmdHMS (s.take 14)) ∧
    parse_pdf_creation_date ("D:20230615120000Z".toList) =
      some ⟨2023, 6, 15, 12, 0, 0⟩ ∧
    parse_pdf_creation_date ("D:202312 1120000".toList) =
      some ⟨2023, 12, 1, 12, 0, 0⟩ ∧
    parse_pdf_creation_date ("D:bad".toList) = none := by
  refine ⟨?_, ?_, by decide, by decide, by decide⟩
  · intro s h
    rw [parse_pdf_creation_date, if_neg h]
  · intro s
    have hc : List.take 2 (['D', ':'] ++ s) = ['D', ':'] := rfl
    rw [parse_pdf_creation_date, if_pos hc]
    rfl

theorem C3_creation_date_witness :
    ("X:20230615120000".toList.take 2 ≠ ['D', ':']) ∧
    parse_pdf_creation_date ("X:20230615120000".toList) = none :=
  ⟨by decide, C3_creation_date_amended.1 _ (by decide)⟩

/-- Claim C4: for every stored corpus, filter combination, query and
offset/limit pair, both the filtered listing and the free-text search
report `total` as the number of all matching records — computed before
offset and limit are applied, hence independent of them — and not the
size of the returned page. -/
theorem C4_total_before_pagination (db : List StoredDoc) (f : ListFilters)
    (q : List Char) (offset limit offset2 limit2 : Nat) :
    (get_documents db f offset limit).total = (db.filter (matchesFilters f)).length ∧
    (search_documents db q offset limit).total = (db.filter (matchesSearch q)).length ∧
    (get_documents db f offset limit).total = (get_documents db f offset2 limit2).total ∧
    (search_documents db q offset limit).total =
      (search_documents db q offset2 limit2).total :=
  ⟨rfl, rfl, rfl, rfl⟩

/-- Claim C5: on a corpus with pairwise-distinct identifiers (the storage
collaborator's invariant), the filtered listing pages `offset=0, limit=N`
and `offset=N, limit=N` are disjoint by identifier, and their
concatenation is exactly the first `2N` records of the full ordered
matching result, for any filter combination and any `N > 0`. -/
theorem C5_pagination_partition (db : List StoredDoc) (f : ListFilters) (N : Nat)
    (hN : 0 < N) (hid : (db.map (fun d => d.id)).Nodup) :
    (∀ i ∈ (get_documents db f 0 N).documents.map (fun r => r.id),
        i ∉ (get_documents db f N N).documents.map (fun r => r.id)) ∧
    (get_documents db f 0 N).documents ++ (get_documents db f N N).documents =
      ((sortByCreatedDesc (db.filter (matchesFilters f))).take (2 * N)).map
        to_list_response := by
  have hperm := sortByCreatedDesc_perm (db.filter (matchesFilters f))
  constructor
  · have hnd : ((db.filter (matchesFilters f)).map (fun d => d.id)).Nodup :=
      hid.sublist ((List.filter_sublist db).map _)
    have hndS : ((sortByCreatedDesc (db.filter (matchesFilters f))).map
        (fun d => d.id)).Nodup := ((hperm.map _).nodup_iff).mpr hnd
    rw [← List.take_append_drop N (sortByCreatedDesc (db.filter (matchesFilters f))),
      List.map_append] at hndS
    have hdisj := (List.nodup_append.mp hndS).2.2
    intro i hi hi2
    simp only [get_documents, List.map_map, List.drop_zero] at hi hi2
    apply hdisj
    · simpa using hi
    · rcases List.mem_map.mp hi2 with ⟨d, hd, hdi⟩
      exact List.mem_map.mpr ⟨d, List.mem_of_mem_take hd, hdi⟩
  · simp only [get_documents, List.drop_zero]
    rw [← List.map_append]
    congr 1
    rw [two_mul, List.take_add]

theorem C5_pagination_witness :
    (0 < 1 ∧ ([wdoc1, wdoc2].map (fun d => d.id)).Nodup) ∧
    ((∀ i ∈ (get_documents [wdoc1, wdoc2] wfilters 0 1).documents.map (fun r => r.id),
        i ∉ (get_documents [wdoc1, wdoc2] wfilters 1 1).documents.map (fun r => r.id)) ∧
      (get_documents [wdoc1, wdoc2] wfilters 0 1).documents ++
          (get_documents [wdoc1, wdoc2] wfilters 1 1).documents =
        ((sortByCreatedDesc ([wdoc1, wdoc2].filter (matchesFilters wfilters))).take
            (2 * 1)).map to_list_response) :=
  ⟨⟨by decide, by decide⟩,
    C5_pagination_partition [wdoc1, wdoc2] wfilters 1 (by decide) (by decide)⟩

/-- Claim C6 counterexample: the query string is interpolated into a SQL
`LIKE` pattern, so a query containing the wildcard `%` matches records in
which it does not occur as a substring: searching `%` over a corpus whose
only record has no `%` in any field still returns that record
(`total = 1`). -/
theorem C6_counterexample :
    (search_documents [cx6doc] ("%".toList) 0 100).total = 1 ∧
    specSearchMatch ("%".toList) cx6doc = false := by
  decide

/-- Claim C6 (amended): for every non-empty query string free of the SQL
`LIKE` wildcards `%` and `_`, free-text search matches exactly the records
in which the query appears as an (ASCII) case-insensitive substring of the
extracted text, filename, title, or author — absent fields never match —
echoes the query in the envelope, and with `offset = 0` and `limit` at
least the match count returns exactly the matching records (so a record
matching only in `author` is returned, and a query matching no field
yields an empty page with `total = 0`). -/
theorem C6_search_amended (db : List StoredDoc) (q : List Char) (limit : Nat)
    (hq : q ≠ []) (hw : ∀ c ∈ q, c ≠ '%' ∧ c ≠ '_')
    (hlim : (db.filter (matchesSearch q)).length ≤ limit) :
    (search_documents db q 0 limit).query = some q ∧
    (∀ d : StoredDoc, matchesSearch q d = specSearchMatch q d) ∧
    (search_documents db q 0 limit).total = (db.filter (specSearchMatch q)).length ∧
    (search_documents db q 0 limit).documents =
      (sortByCreatedDesc (db.filter (specSearchMatch q))).map to_list_response := by
  have hfe : db.filter (matchesSearch q) = db.filter (specSearchMatch q) :=
    List.filter_congr (fun d _ => matchesSearch_eq_spec q hw d)
  refine ⟨rfl, fun d => matchesSearch_eq_spec q hw d, ?_, ?_⟩
  · simp only [search_documents]
    rw [hfe]
  · simp only [search_documents, List.drop_zero]
    rw [List.take_of_length_le
      (by rw [(sortByCreatedDesc_perm _).length_eq]; exact hlim), hfe]

theorem C6_search_witness :
    (("ada".toList ≠ []) ∧ (∀ c ∈ "ada".toList, c ≠ '%' ∧ c ≠ '_') ∧
      ([w6doc].filter (matchesSearch ("ada".toList))).length ≤ 100) ∧
    ((search_documents [w6doc] ("ada".toList) 0 100).query = some ("ada".toList) ∧
      (∀ d : StoredDoc, matchesSearch ("ada".toList) d = specSearchMatch ("ada".toList) d) ∧
      (search_documents [w6doc] ("ada".toList) 0 100).total =
        ([w6doc].filter (specSearchMatch ("ada".toList))).length ∧
      (search_documents [w6doc] ("ada".toList) 0 100).documents =
        (sortByCreatedDesc ([w6doc].filter (specSearchMatch ("ada".toList)))).map
          to_list_response) :=
  ⟨⟨by decide, by decide, by decide⟩,
    C6_search_amended [w6doc] ("ada".toList) 100 (by decide) (by decide) (by decide)⟩

/-- Claim C7 counterexample: the collection `[" a"]` contains no comma,
yet encoding and decoding it yields `["a"]` — the decode strips
whitespace, so the round trip is not the identity on every comma-free
collection. -/
theorem C7_counterexample :
    (',' ∉ (" a".toList)) ∧
    parse_list (joinComma [" a".toList]) ≠ [" a".toList] := by
  decide

/-- Claim C7 (amended): the assembler encodes a collection as a
comma-joined string with the empty collection encoded as the empty string
and conversely; encode followed by the decode used for reading records
back is the identity on every collection whose elements are non-empty,
contain no comma, and neither start nor end with whitespace (the decode
strips whitespace and drops empty items, so losses also occur for
elements with commas, leading/trailing whitespace, or empty elements). -/
theorem C7_encode_decode_amended :
    (joinComma [] = [] ∧ parse_list [] = []) ∧
    ∀ xs : List (List Char),
      (∀ x ∈ xs, x ≠ [] ∧ ',' ∉ x ∧
        (∀ c, x.head? = some c → isPySpace c = false) ∧
        (∀ c, x.getLast? = some c → isPySpace c = false)) →
      parse_list (joinComma xs) = xs := by
  refine ⟨⟨rfl, rfl⟩, ?_⟩
  intro xs h
  exact parse_list_joinComma xs h

theorem C7_encode_decode_witness :
    parse_list (joinComma [['a', 'b'], ['c']]) = [['a', 'b'], ['c']] :=
  C7_encode_decode_amended.2 [['a', 'b'], ['c']] (by
    intro x hx
    rcases List.mem_cons.mp hx with h1 | h1
    · subst h1
      refine ⟨by decide, by decide, ?_, ?_⟩ <;>
        (intro c hc; simp only [List.head?_cons, List.getLast?_cons_cons,
          List.getLast?_singleton, Option.some.injEq] at hc; subst hc; decide)
    · rcases List.mem_cons.mp h1 with h2 | h2
      · subst h2
        refine ⟨by decide, by decide, ?_, ?_⟩ <;>
          (intro c hc; simp only [List.head?_cons, List.getLast?_singleton,
            Option.some.injEq] at hc; subst hc; decide)
      · simp at h2)

/-- Claim C8: the aggregate endpoint reports the number of records in
storage, the number with `pii_found = true`, the sums over all records of
the sizes of the decoded email and phone collections (decoded from the
stored comma-joined fields, not re-scanned from text), and the sum of
page counts with a missing page count contributing zero. -/
theorem C8_stats_closed_form (docs : List StoredDoc) :
    (get_stats docs).total_documents = docs.length ∧
    (get_stats docs).documents_with_pii =
      (docs.filter (fun d => d.pii_found)).length ∧
    (get_stats docs).total_emails_found =
      (docs.map (fun d => (parse_list d.emails_found).length)).sum ∧
    (get_stats docs).total_phone_numbers_found =
      (docs.map (fun d => (parse_list d.phone_numbers_found).length)).sum ∧
    (get_stats docs).total_pages_processed =
      (docs.map (fun d => match d.page_count with | none => 0 | some n => n)).sum := by
  have h := get_stats_foldl docs (0, 0, 0, 0)
  simp only [get_stats, h]
  simp

/-- Claim C9: every string captured by the email matcher or the phone
matcher contains no comma and no leading or trailing whitespace;
consequently the comma-joined encoding of these two collections decodes
back to exactly the captured elements, and the `emails_count` and
`phones_count` fields of the list projection equal the sizes of the
persisted email and phone collections. -/
theorem C9_entity_tokens (text filename : List Char) (file_size pdf_pc newId now : Nat)
    (title author : Option (List Char)) (pcd : Option PyDateTime) :
    (∀ m ∈ (extract_entities text).emails,
      ',' ∉ m ∧ (∀ c, m.head? = some c → isPySpace c = false) ∧
        (∀ c, m.getLast? = some c → isPySpace c = false)) ∧
    (∀ m ∈ (extract_entities text).phone_numbers,
      ',' ∉ m ∧ (∀ c, m.head? = some c → isPySpace c = false) ∧
        (∀ c, m.getLast? = some c → isPySpace c = false)) ∧
    parse_list (joinComma (extract_entities text).emails) =
      (extract_entities text).emails ∧
    parse_list (joinComma (extract_entities text).phone_numbers) =
      (extract_entities text).phone_numbers ∧
    (to_list_response (upload_record filename file_size
        ⟨text, pdf_pc, title, author, pcd⟩ newId now)).emails_count =
      (extract_entities text).emails.length ∧
    (to_list_response (upload_record filename file_size
        ⟨text, pdf_pc, title, author, pcd⟩ newId now)).phones_count =
      (extract_entities text).phone_numbers.length := by
  refine ⟨fun m hm => (extract_emails_good text m hm).2,
    fun m hm => (extract_phones_good text m hm).2,
    parse_list_joinComma _ (extract_emails_good text),
    parse_list_joinComma _ (extract_phones_good text), ?_, ?_⟩
  · simp only [to_list_response, upload_record]
    rw [parse_list_joinComma _ (extract_emails_good text)]
  · simp only [to_list_response, upload_record]
    rw [parse_list_joinComma _ (extract_phones_good text)]

theorem C9_entity_tokens_witness :
    ("a@b.com".toList ∈ (extract_entities exampleText).emails) ∧
    (',' ∉ ("a@b.com".toList) ∧
      (∀ c, ("a@b.com".toList).head? = some c → isPySpace c = false) ∧
      (∀ c, ("a@b.com".toList).getLast? = some c → isPySpace c = false)) :=
  ⟨by decide,
    (C9_entity_tokens exampleText [] 0 0 0 0 none none none).1 _ (by decide)⟩

/-- Claim C10: the content-statistics function is total and returns
`char_count` equal to the number of codepoints of the text (Python `len`
on `str`, not a byte count) and `word_count` equal to the number of
maximal non-empty runs of non-whitespace characters; the empty string
yields zero words and zero characters. -/
theorem C10_content_stats (text : List Char) :
    (compute_content_stats text).word_count = countRuns text ∧
    (compute_content_stats text).char_count = text.length ∧
    compute_content_stats [] = ⟨0, 0⟩ :=
  ⟨pySplitWs_length text, rfl, rfl⟩

end DocExtract
